import Mathlib

/-!
Verification of the Bladerunner progress bar (`src/progressbar.py`).

The Python module renders a single-line textual progress bar.  We embed the
renderer shallowly: Python strings become `List Char`, Python floats become
exact rationals `ℚ` (the arithmetic the module performs — one division, one
multiplication, `int` truncation and `round` — is modelled exactly), and the
one statement that can raise (`counter / total` with `total = 0`) makes
`update` return an `Option`.  `round` is modelled with Python 3 semantics
(round half to even); every claim settled below is insensitive to the tie
rule.  Glyph strings keep the source's unicode characters, each a single
character, so `List.length` matches Python's `len`.
-/

set_option autoImplicit false

namespace Bladerunner

/-- Number of characters of Python's `str(n)` for a natural `n`;
`len(str(total))` and `len(str(counter))` in the source. -/
def digitCount (n : ℕ) : ℕ :=
  if n < 10 then 1 else digitCount (n / 10) + 1
termination_by n
decreasing_by exact Nat.div_lt_self (by omega) (by omega)

/-- Python's `str(n)` for a natural number, as a list of characters. -/
def strNat (n : ℕ) : List Char :=
  if n < 10 then [Nat.digitChar n] else strNat (n / 10) ++ [Nat.digitChar (n % 10)]
termination_by n
decreasing_by exact Nat.div_lt_self (by omega) (by omega)

/-- Python's `int()` on a real value: truncation toward zero. -/
def pyInt (q : ℚ) : ℤ :=
  if 0 ≤ q then ⌊q⌋ else ⌈q⌉

/-- Python's `round()` to an integer: round half to even. -/
def pyRound (q : ℚ) : ℤ :=
  if q - ⌊q⌋ < 1 / 2 then ⌊q⌋
  else if 1 / 2 < q - ⌊q⌋ then ⌊q⌋ + 1
  else if ⌊q⌋ % 2 = 0 then ⌊q⌋ else ⌊q⌋ + 1

/-- The module-level helper `rounded(number, round_to)`:
`int(round(((number - int(number)) * 100) / round_to) * round_to)`. -/
def rounded (number : ℚ) (round_to : ℤ) : ℤ :=
  pyRound ((number - (pyInt number : ℚ)) * 100 / (round_to : ℚ)) * round_to

/-- Python string repetition `g * n` (empty for `n ≤ 0`). -/
def pyRepeat (g : List Char) (n : ℤ) : List Char :=
  (List.replicate n.toNat g).flatten

/-- `self.chars["left"]`, indexed by style. -/
def chars_left : ℕ → List Char
  | 0 => ['[']
  | 1 => ['{']
  | _ => []

/-- `self.chars["right"]`, indexed by style. -/
def chars_right : ℕ → List Char
  | 0 => [']']
  | 1 => ['}']
  | _ => []

/-- `self.chars["space"]`, indexed by style. -/
def chars_space : ℕ → List Char
  | 0 => [' ']
  | 1 => [' ']
  | _ => ['░']

/-- `self.chars[25]`, indexed by style. -/
def chars_25 : ℕ → List Char
  | 0 => ['/']
  | 1 => ['.']
  | _ => ['▒']

/-- `self.chars[50]`, indexed by style. -/
def chars_50 : ℕ → List Char
  | 0 => ['-']
  | 1 => ['-']
  | _ => ['▓']

/-- `self.chars[75]`, indexed by style. -/
def chars_75 : ℕ → List Char
  | 0 => ['\\']
  | 1 => ['+']
  | _ => ['▊']

/-- `self.chars[100]`, indexed by style. -/
def chars_100 : ℕ → List Char
  | 0 => ['=']
  | 1 => ['*']
  | _ => ['█']

/-- Lookup of `self.chars[key]` for the numeric keys; `none` models the
`KeyError` that `update()` catches for any key outside {25, 50, 75, 100}. -/
def chars_num (key : ℤ) (s : ℕ) : Option (List Char) :=
  if key = 25 then some (chars_25 s)
  else if key = 50 then some (chars_50 s)
  else if key = 75 then some (chars_75 s)
  else if key = 100 then some (chars_100 s)
  else none

/-- The renderer's state: the fields `ProgressBar.__init__` assigns. -/
structure ProgressBar where
  total : ℕ
  total_width : ℤ
  width : ℤ
  style : ℕ
  show_counters : Bool
  counter : ℕ

/-- The `options["style"]` entry: absent (KeyError / no dict → TypeError),
an integer, or a value whose comparison with an int raises TypeError. -/
inductive StyleOption where
  | absent : StyleOption
  | ofInt : ℤ → StyleOption
  | nonInt : StyleOption

/-- The `options` dictionary of `ProgressBar.__init__`. -/
structure Options where
  width : Option ℤ
  style : StyleOption
  show_counters : Option Bool

/-- `ProgressBar.__init__(total_updates, options)`; `term_width` is the value
the external `get_term_width()` collaborator would return. -/
def mkProgressBar (total_updates : ℕ) (opts : Options) (term_width : ℤ) : ProgressBar :=
  let total_width : ℤ :=
    match opts.width with
    | some w => if w = 0 then term_width else w
    | none => term_width
  let style : ℕ :=
    match opts.style with
    | StyleOption.ofInt z => if z < 0 ∨ 3 ≤ z then 0 else z.toNat
    | _ => 0
  let show_counters : Bool := opts.show_counters.getD true
  let width : ℤ :=
    if show_counters then
      total_width - ((digitCount total_updates : ℤ) * 2
        + ((chars_left style).length : ℤ) + ((chars_right style).length : ℤ) + 2)
    else
      total_width - (((chars_left style).length : ℤ) + ((chars_right style).length : ℤ))
  { total := total_updates, total_width := total_width, width := width,
    style := style, show_counters := show_counters, counter := 0 }

/-- `counter_diff = len(str(self.total)) - len(str(self.counter))`. -/
def counterDiff (pb : ProgressBar) : ℤ :=
  (digitCount pb.total : ℤ) - (digitCount pb.counter : ℤ)

/-- `percent = (self.counter / self.total) * (self.width + counter_diff)`. -/
def percent (pb : ProgressBar) : ℚ :=
  ((pb.counter : ℚ) / (pb.total : ℚ)) * (((pb.width + counterDiff pb) : ℤ) : ℚ)

/-- `int(percent)`: the number of 100%-fill glyphs `update()` asks for. -/
def intPercent (pb : ProgressBar) : ℤ :=
  pyInt (percent pb)

/-- The rounding step `update()` uses: 50 when `not self.total > self.width * 4`,
25 otherwise. -/
def halfStep (pb : ProgressBar) : ℤ :=
  if ¬ ((pb.total : ℤ) > pb.width * 4) then 50 else 25

/-- The key `update()` looks up for the half-character glyph. -/
def halfKey (pb : ProgressBar) : ℤ :=
  rounded (percent pb) (halfStep pb)

/-- `halfchar`, with the `except KeyError: halfchar = ""` fallback. -/
def halfchar (pb : ProgressBar) : List Char :=
  (chars_num (halfKey pb) pb.style).getD []

/-- Everything one `update()` call writes after the leading carriage return,
with `pb.counter` already holding the incremented value. -/
def updateBody (pb : ProgressBar) : List Char :=
  chars_left pb.style
    ++ pyRepeat (chars_100 pb.style) (intPercent pb)
    ++ (if pb.show_counters then
          halfchar pb
            ++ pyRepeat (chars_space pb.style)
                 (pb.width + counterDiff pb - intPercent pb - ((halfchar pb).length : ℤ))
            ++ chars_right pb.style
            ++ ' ' :: (strNat pb.counter ++ '/' :: strNat pb.total)
        else
          halfchar pb
            ++ pyRepeat (chars_space pb.style)
                 (pb.width - intPercent pb - ((halfchar pb).length : ℤ))
            ++ chars_right pb.style)

/-- `ProgressBar.update()`: increments the counter, then writes; `none` models
the `ZeroDivisionError` raised when `self.total == 0`. -/
def update (pb : ProgressBar) : Option (ProgressBar × List Char) :=
  let pb' := { pb with counter := pb.counter + 1 }
  if pb'.total = 0 then none
  else some (pb', '\r' :: updateBody pb')

/-- What `ProgressBar.setup()` writes (it never touches the counter). -/
def setupOutput (pb : ProgressBar) : List Char :=
  if pb.show_counters then
    chars_left pb.style
      ++ pyRepeat (chars_space pb.style) (pb.width + counterDiff pb)
      ++ chars_right pb.style
      ++ ' ' :: (strNat pb.counter ++ '/' :: strNat pb.total)
  else
    chars_left pb.style
      ++ pyRepeat (chars_space pb.style) pb.width
      ++ chars_right pb.style

/-- `ProgressBar.setup()` as a state-passing operation. -/
def setup (pb : ProgressBar) : ProgressBar × List Char :=
  (pb, setupOutput pb)

/-- The byte sequence `ProgressBar.clear()` writes across its two writes. -/
def clearOutput (pb : ProgressBar) : List Char :=
  '\r' :: (pyRepeat [' '] pb.total_width ++ ['\r'])

/-- `ProgressBar.clear()` as a state-passing operation. -/
def clear (pb : ProgressBar) : ProgressBar × List Char :=
  (pb, clearOutput pb)

/-- `ProgressBar(10, {"width": 6, "show_counters": False})` about to make its
9th `update()` call (counter already incremented to 9). -/
def pbC1 : ProgressBar :=
  { mkProgressBar 10 (Options.mk (some 6) StyleOption.absent (some false)) 80 with
    counter := 9 }

/-- `ProgressBar(45, {"width": 12})`: displayWidth 12 and barWidth 4 with the
counters shown. -/
def pbC2 : ProgressBar :=
  mkProgressBar 45 (Options.mk (some 12) StyleOption.absent none) 80

/-- `ProgressBar(9, {"width": 11})`: displayWidth 11 and barWidth 5 with the
counters shown. -/
def pbC5 : ProgressBar :=
  mkProgressBar 9 (Options.mk (some 11) StyleOption.absent none) 80

/-! ### Basic facts about the helpers -/

lemma digitCount_eq (n : ℕ) :
    digitCount n = if n < 10 then 1 else digitCount (n / 10) + 1 := by
  rw [digitCount]

lemma digitCount_pos (n : ℕ) : 1 ≤ digitCount n := by
  induction n using Nat.strong_induction_on with
  | _ n ih =>
    rw [digitCount_eq]
    split
    · exact le_refl 1
    · have := ih (n / 10) (Nat.div_lt_self (by omega) (by omega))
      omega

lemma digitCount_mono (m n : ℕ) (h : m ≤ n) : digitCount m ≤ digitCount n := by
  induction n using Nat.strong_induction_on generalizing m with
  | _ n ih =>
    rw [digitCount_eq m, digitCount_eq n]
    by_cases hn : n < 10
    · have hm : m < 10 := by omega
      simp [hm, hn]
    · simp only [if_neg hn]
      by_cases hm : m < 10
      · have := digitCount_pos (n / 10)
        simp only [if_pos hm]
        omega
      · simp only [if_neg hm]
        have hd : m / 10 ≤ n / 10 := Nat.div_le_div_right h
        have := ih (n / 10) (Nat.div_lt_self (by omega) (by omega)) (m / 10) hd
        omega

lemma strNat_length (n : ℕ) : (strNat n).length = digitCount n := by
  induction n using Nat.strong_induction_on with
  | _ n ih =>
    rw [strNat, digitCount_eq]
    split
    · rfl
    · rw [List.length_append]
      have := ih (n / 10) (Nat.div_lt_self (by omega) (by omega))
      simp [this]

lemma pyRepeat_length (g : List Char) (n : ℤ) :
    (pyRepeat g n).length = n.toNat * g.length := by
  simp [pyRepeat, List.length_flatten, List.map_replicate, List.sum_replicate,
    smul_eq_mul]

lemma chars_space_length (s : ℕ) : (chars_space s).length = 1 := by
  rcases s with _ | _ | s <;> rfl

lemma chars_100_length (s : ℕ) : (chars_100 s).length = 1 := by
  rcases s with _ | _ | s <;> rfl

lemma chars_num_length (k : ℤ) (s : ℕ) (g : List Char)
    (h : chars_num k s = some g) : g.length = 1 := by
  unfold chars_num at h
  split_ifs at h
  · cases h; rcases s with _ | _ | s <;> rfl
  · cases h; rcases s with _ | _ | s <;> rfl
  · cases h; rcases s with _ | _ | s <;> rfl
  · cases h; rcases s with _ | _ | s <;> rfl

lemma chars_num_zero (s : ℕ) : chars_num 0 s = none := by
  simp [chars_num]

lemma halfchar_length_le (pb : ProgressBar) : (halfchar pb).length ≤ 1 := by
  unfold halfchar
  cases hk : chars_num (halfKey pb) pb.style with
  | none => simp
  | some g => simp [chars_num_length _ _ _ hk]

lemma pyInt_eq_floor {q : ℚ} (h : 0 ≤ q) : pyInt q = ⌊q⌋ := if_pos h

lemma pyInt_intCast (z : ℤ) : pyInt (z : ℚ) = z := by
  unfold pyInt
  split <;> simp

lemma pyRound_zero : pyRound 0 = 0 := by
  unfold pyRound
  norm_num

lemma rounded_eq_zero_of_int {q : ℚ} (r : ℤ) (h : (pyInt q : ℚ) = q) :
    rounded q r = 0 := by
  simp [rounded, h, pyRound_zero]

lemma pyRound_bounds (q : ℚ) : ⌊q⌋ ≤ pyRound q ∧ pyRound q ≤ ⌊q⌋ + 1 := by
  unfold pyRound
  split_ifs <;> omega

lemma pyRound_abs (q : ℚ) : |(pyRound q : ℚ) - q| ≤ 1 / 2 := by
  have h0 : (⌊q⌋ : ℚ) ≤ q := Int.floor_le q
  have h1 : q < ⌊q⌋ + 1 := Int.lt_floor_add_one q
  unfold pyRound
  split_ifs with ha hb hc
  · rw [abs_le]; constructor <;> push_cast <;> linarith
  · rw [abs_le]; constructor <;> push_cast <;> linarith
  · rw [abs_le]; constructor <;> push_cast <;> linarith
  · rw [abs_le]; constructor <;> push_cast <;> linarith

/-! ### Facts about `percent` and the half-character glyph -/

lemma counterDiff_nonneg {pb : ProgressBar} (h : pb.counter ≤ pb.total) :
    0 ≤ counterDiff pb := by
  have := digitCount_mono pb.counter pb.total h
  unfold counterDiff
  omega

lemma percent_nonneg {pb : ProgressBar}
    (hW : 0 ≤ pb.width + counterDiff pb) : 0 ≤ percent pb := by
  unfold percent
  apply mul_nonneg
  · positivity
  · exact_mod_cast hW

lemma percent_le {pb : ProgressBar} (ht : 1 ≤ pb.total)
    (hc : pb.counter ≤ pb.total) (hW : 0 ≤ pb.width + counterDiff pb) :
    percent pb ≤ ((pb.width + counterDiff pb : ℤ) : ℚ) := by
  unfold percent
  have htq : (0 : ℚ) < (pb.total : ℚ) := by exact_mod_cast ht
  have h1 : ((pb.counter : ℚ) / (pb.total : ℚ)) ≤ 1 := by
    rw [div_le_one htq]
    exact_mod_cast hc
  calc ((pb.counter : ℚ) / (pb.total : ℚ)) * (((pb.width + counterDiff pb) : ℤ) : ℚ)
      ≤ 1 * (((pb.width + counterDiff pb) : ℤ) : ℚ) := by
        apply mul_le_mul_of_nonneg_right h1
        exact_mod_cast hW
    _ = (((pb.width + counterDiff pb) : ℤ) : ℚ) := one_mul _

lemma intPercent_eq_floor {pb : ProgressBar}
    (hW : 0 ≤ pb.width + counterDiff pb) : intPercent pb = ⌊percent pb⌋ :=
  pyInt_eq_floor (percent_nonneg hW)

lemma intPercent_nonneg {pb : ProgressBar}
    (hW : 0 ≤ pb.width + counterDiff pb) : 0 ≤ intPercent pb := by
  rw [intPercent_eq_floor hW]
  exact Int.floor_nonneg.mpr (percent_nonneg hW)

lemma intPercent_le {pb : ProgressBar} (ht : 1 ≤ pb.total)
    (hc : pb.counter ≤ pb.total) (hW : 0 ≤ pb.width + counterDiff pb) :
    intPercent pb ≤ pb.width + counterDiff pb := by
  rw [intPercent_eq_floor hW]
  have := Int.floor_le_floor (percent_le ht hc hW)
  simpa using this

lemma halfchar_eq_nil_of_key_zero {pb : ProgressBar} (h : halfKey pb = 0) :
    halfchar pb = [] := by
  simp [halfchar, h, chars_num_zero]

lemma halfchar_eq_nil_of_int {pb : ProgressBar}
    (h : (pyInt (percent pb) : ℚ) = percent pb) : halfchar pb = [] :=
  halfchar_eq_nil_of_key_zero (rounded_eq_zero_of_int _ h)

/-- At a full bar (`intPercent` reaching the whole budget), `percent` is an
exact integer, so the fractional remainder rounds to key 0 and the
half-character glyph is empty. -/
lemma halfchar_eq_nil_of_full {pb : ProgressBar} (ht : 1 ≤ pb.total)
    (hc : pb.counter ≤ pb.total) (hW : 0 ≤ pb.width + counterDiff pb)
    (heq : intPercent pb = pb.width + counterDiff pb) : halfchar pb = [] := by
  have hpeq : percent pb = ((pb.width + counterDiff pb : ℤ) : ℚ) := by
    have h1 := percent_le ht hc hW
    have h2 : ((pb.width + counterDiff pb : ℤ) : ℚ) ≤ percent pb := by
      have hfl := intPercent_eq_floor hW
      rw [← heq, hfl]
      exact Int.floor_le _
    linarith
  apply halfchar_eq_nil_of_int
  rw [hpeq, pyInt_intCast]

/-- The fill glyphs plus the half glyph never overrun the budget
`width + counterDiff` while `counter ≤ total`. -/
lemma fill_add_half_le {pb : ProgressBar} (ht : 1 ≤ pb.total)
    (hc : pb.counter ≤ pb.total) (hW : 0 ≤ pb.width + counterDiff pb) :
    intPercent pb + ((halfchar pb).length : ℤ) ≤ pb.width + counterDiff pb := by
  rcases eq_or_lt_of_le (intPercent_le ht hc hW) with heq | hlt
  · rw [halfchar_eq_nil_of_full ht hc hW heq]
    simp [heq]
  · have := halfchar_length_le pb
    omega

/-- Character count of one `update()` write after the carriage return, in the
counters-shown mode: caps, the whole `width + counterDiff` fill/space budget,
and the ` counter/total` suffix. -/
lemma updateBody_length_shown (pb : ProgressBar)
    (hsc : pb.show_counters = true) (ht : 1 ≤ pb.total)
    (hc : pb.counter ≤ pb.total) (hw : 0 ≤ pb.width) :
    ((updateBody pb).length : ℤ)
      = ((chars_left pb.style).length : ℤ) + ((chars_right pb.style).length : ℤ)
        + pb.width + (digitCount pb.total : ℤ) * 2 + 2 := by
  have hcd : 0 ≤ counterDiff pb := counterDiff_nonneg hc
  have hW : 0 ≤ pb.width + counterDiff pb := by omega
  have hf0 : 0 ≤ intPercent pb := intPercent_nonneg hW
  have hkey := fill_add_half_le ht hc hW
  have hcdef : counterDiff pb
      = (digitCount pb.total : ℤ) - (digitCount pb.counter : ℤ) := rfl
  simp only [updateBody, hsc, if_true, List.length_append, List.length_cons,
    pyRepeat_length, chars_space_length, chars_100_length, strNat_length,
    mul_one]
  push_cast
  omega

/-! ### Constructor facts -/

lemma mkProgressBar_total (t : ℕ) (o : Options) (w : ℤ) :
    (mkProgressBar t o w).total = t := rfl

lemma mkProgressBar_counter (t : ℕ) (o : Options) (w : ℤ) :
    (mkProgressBar t o w).counter = 0 := rfl

lemma mkProgressBar_show_counters (t : ℕ) (o : Options) (w : ℤ) :
    (mkProgressBar t o w).show_counters = o.show_counters.getD true := rfl

lemma mkProgressBar_width_shown (t : ℕ) (o : Options) (w : ℤ)
    (h : (mkProgressBar t o w).show_counters = true) :
    (mkProgressBar t o w).width
      = (mkProgressBar t o w).total_width
        - ((digitCount t : ℤ) * 2
           + ((chars_left (mkProgressBar t o w).style).length : ℤ)
           + ((chars_right (mkProgressBar t o w).style).length : ℤ) + 2) := by
  have h' : o.show_counters.getD true = true := by
    rw [← mkProgressBar_show_counters t o w]; exact h
  simp only [mkProgressBar, h', if_true]

lemma mkProgressBar_width_hidden (t : ℕ) (o : Options) (w : ℤ)
    (h : (mkProgressBar t o w).show_counters = false) :
    (mkProgressBar t o w).width
      = (mkProgressBar t o w).total_width
        - (((chars_left (mkProgressBar t o w).style).length : ℤ)
           + ((chars_right (mkProgressBar t o w).style).length : ℤ)) := by
  have h' : o.show_counters.getD true = false := by
    rw [← mkProgressBar_show_counters t o w]; exact h
  simp only [mkProgressBar, h', Bool.false_eq_true, if_false]

/-! ### Length of the `setup()` write -/

lemma setupOutput_length_shown (pb : ProgressBar)
    (hsc : pb.show_counters = true) (hc : pb.counter ≤ pb.total)
    (hw : 0 ≤ pb.width) :
    ((setupOutput pb).length : ℤ)
      = ((chars_left pb.style).length : ℤ) + ((chars_right pb.style).length : ℤ)
        + pb.width + (digitCount pb.total : ℤ) * 2 + 2 := by
  have hcd : 0 ≤ counterDiff pb := counterDiff_nonneg hc
  have hcdef : counterDiff pb
      = (digitCount pb.total : ℤ) - (digitCount pb.counter : ℤ) := rfl
  simp only [setupOutput, hsc, if_true, List.length_append, List.length_cons,
    pyRepeat_length, chars_space_length, strNat_length, mul_one]
  push_cast
  omega

lemma setupOutput_length_hidden (pb : ProgressBar)
    (hsc : pb.show_counters = false) (hw : 0 ≤ pb.width) :
    ((setupOutput pb).length : ℤ)
      = ((chars_left pb.style).length : ℤ) + ((chars_right pb.style).length : ℤ)
        + pb.width := by
  simp only [setupOutput, hsc, Bool.false_eq_true, if_false, List.length_append,
    pyRepeat_length, chars_space_length, mul_one]
  push_cast
  omega

/-! ### No character of the rendered bar is a line feed -/

lemma digitChar_ne_newline {d : ℕ} (h : d < 10) : Nat.digitChar d ≠ '\n' := by
  interval_cases d <;> decide

lemma strNat_ne_newline (n : ℕ) : ∀ a ∈ strNat n, a ≠ '\n' := by
  induction n using Nat.strong_induction_on with
  | _ n ih =>
    rw [strNat]
    split_ifs with h
    · intro a ha
      rw [List.mem_singleton] at ha
      rw [ha]
      exact digitChar_ne_newline h
    · intro a ha
      rw [List.mem_append] at ha
      rcases ha with ha | ha
      · exact ih (n / 10) (Nat.div_lt_self (by omega) (by omega)) a ha
      · rw [List.mem_singleton] at ha
        rw [ha]
        exact digitChar_ne_newline (Nat.mod_lt n (by omega))

lemma mem_pyRepeat {a : Char} {g : List Char} {n : ℤ} (h : a ∈ pyRepeat g n) :
    a ∈ g := by
  unfold pyRepeat at h
  rw [List.mem_flatten] at h
  obtain ⟨l, hl, ha⟩ := h
  rw [List.eq_of_mem_replicate hl] at ha
  exact ha

lemma chars_left_ne_newline (s : ℕ) : ∀ a ∈ chars_left s, a ≠ '\n' := by
  rcases s with _ | _ | s <;> intro a ha <;> simp [chars_left] at ha <;>
    rw [ha] <;> decide

lemma chars_right_ne_newline (s : ℕ) : ∀ a ∈ chars_right s, a ≠ '\n' := by
  rcases s with _ | _ | s <;> intro a ha <;> simp [chars_right] at ha <;>
    rw [ha] <;> decide

lemma chars_space_ne_newline (s : ℕ) : ∀ a ∈ chars_space s, a ≠ '\n' := by
  rcases s with _ | _ | s <;> intro a ha <;> simp [chars_space] at ha <;>
    rw [ha] <;> decide

lemma setupOutput_ne_newline (pb : ProgressBar) :
    ∀ a ∈ setupOutput pb, a ≠ '\n' := by
  intro a ha
  unfold setupOutput at ha
  split at ha
  · rcases List.mem_append.mp ha with h | h
    · rcases List.mem_append.mp h with h | h
      · rcases List.mem_append.mp h with h | h
        · exact chars_left_ne_newline pb.style a h
        · exact chars_space_ne_newline pb.style a (mem_pyRepeat h)
      · exact chars_right_ne_newline pb.style a h
    · rcases List.mem_cons.mp h with h | h
      · rw [h]; decide
      · rcases List.mem_append.mp h with h | h
        · exact strNat_ne_newline pb.counter a h
        · rcases List.mem_cons.mp h with h | h
          · rw [h]; decide
          · exact strNat_ne_newline pb.total a h
  · rcases List.mem_append.mp ha with h | h
    · rcases List.mem_append.mp h with h | h
      · exact chars_left_ne_newline pb.style a h
      · exact chars_space_ne_newline pb.style a (mem_pyRepeat h)
    · exact chars_right_ne_newline pb.style a h

/-! ### Range and nearest-multiple facts about `rounded` -/

lemma rounded_dvd (x : ℚ) (r : ℤ) : r ∣ rounded x r := by
  unfold rounded
  exact dvd_mul_left _ _

lemma rounded_near (x : ℚ) (r : ℤ) (hx : 0 ≤ x) (hr : 0 < r) :
    |((rounded x r : ℤ) : ℚ) - (x - (⌊x⌋ : ℚ)) * 100| ≤ (r : ℚ) / 2 := by
  unfold rounded
  rw [pyInt_eq_floor hx]
  have hrq : (0 : ℚ) < (r : ℚ) := by exact_mod_cast hr
  set s : ℚ := (x - (⌊x⌋ : ℚ)) * 100 / (r : ℚ) with hs
  have habs := pyRound_abs s
  have hsr : s * (r : ℚ) = (x - (⌊x⌋ : ℚ)) * 100 :=
    div_mul_cancel₀ _ (ne_of_gt hrq)
  calc |((pyRound s * r : ℤ) : ℚ) - (x - (⌊x⌋ : ℚ)) * 100|
      = |(pyRound s : ℚ) - s| * (r : ℚ) := by
        rw [← hsr]
        push_cast
        rw [← sub_mul, abs_mul, abs_of_nonneg (le_of_lt hrq)]
    _ ≤ (1 / 2) * (r : ℚ) := mul_le_mul_of_nonneg_right habs (le_of_lt hrq)
    _ = (r : ℚ) / 2 := by ring

lemma rounded_mem_25 (x : ℚ) (hx : 0 ≤ x) :
    rounded x 25 ∈ ({0, 25, 50, 75, 100} : Finset ℤ) := by
  unfold rounded
  rw [pyInt_eq_floor hx]
  have hf0 : 0 ≤ x - (⌊x⌋ : ℚ) := by
    have := Int.floor_le x; linarith
  have hf1 : x - (⌊x⌋ : ℚ) < 1 := by
    have := Int.lt_floor_add_one x; linarith
  have hs0 : 0 ≤ (x - (⌊x⌋ : ℚ)) * 100 / ((25 : ℤ) : ℚ) := by positivity
  have hs1 : (x - (⌊x⌋ : ℚ)) * 100 / ((25 : ℤ) : ℚ) < 4 := by
    rw [div_lt_iff₀ (by norm_num)]
    push_cast
    linarith
  have hb := pyRound_bounds ((x - (⌊x⌋ : ℚ)) * 100 / ((25 : ℤ) : ℚ))
  have h0 : 0 ≤ ⌊(x - (⌊x⌋ : ℚ)) * 100 / ((25 : ℤ) : ℚ)⌋ := Int.floor_nonneg.mpr hs0
  have h4 : ⌊(x - (⌊x⌋ : ℚ)) * 100 / ((25 : ℤ) : ℚ)⌋ < 4 := by
    rw [Int.floor_lt]
    exact_mod_cast hs1
  set k := pyRound ((x - (⌊x⌋ : ℚ)) * 100 / ((25 : ℤ) : ℚ)) with hk
  have hk0 : 0 ≤ k := le_trans h0 hb.1
  have hk4 : k ≤ 4 := by omega
  interval_cases k <;> decide

lemma rounded_mem_50 (x : ℚ) (hx : 0 ≤ x) :
    rounded x 50 ∈ ({0, 50, 100} : Finset ℤ) := by
  unfold rounded
  rw [pyInt_eq_floor hx]
  have hf0 : 0 ≤ x - (⌊x⌋ : ℚ) := by
    have := Int.floor_le x; linarith
  have hf1 : x - (⌊x⌋ : ℚ) < 1 := by
    have := Int.lt_floor_add_one x; linarith
  have hs0 : 0 ≤ (x - (⌊x⌋ : ℚ)) * 100 / ((50 : ℤ) : ℚ) := by positivity
  have hs1 : (x - (⌊x⌋ : ℚ)) * 100 / ((50 : ℤ) : ℚ) < 2 := by
    rw [div_lt_iff₀ (by norm_num)]
    push_cast
    linarith
  have hb := pyRound_bounds ((x - (⌊x⌋ : ℚ)) * 100 / ((50 : ℤ) : ℚ))
  have h0 : 0 ≤ ⌊(x - (⌊x⌋ : ℚ)) * 100 / ((50 : ℤ) : ℚ)⌋ := Int.floor_nonneg.mpr hs0
  have h2 : ⌊(x - (⌊x⌋ : ℚ)) * 100 / ((50 : ℤ) : ℚ)⌋ < 2 := by
    rw [Int.floor_lt]
    exact_mod_cast hs1
  set k := pyRound ((x - (⌊x⌋ : ℚ)) * 100 / ((50 : ℤ) : ℚ)) with hk
  have hk0 : 0 ≤ k := le_trans h0 hb.1
  have hk2 : k ≤ 2 := by omega
  interval_cases k <;> decide

lemma chars_num_isSome_iff (k : ℤ) (s : ℕ) :
    (chars_num k s).isSome = true ↔ k = 25 ∨ k = 50 ∨ k = 75 ∨ k = 100 := by
  unfold chars_num
  split_ifs <;> simp_all

/-! ### Monotonicity of the fill count, and its overflow behaviour -/

lemma intPercent_mono (pb : ProgressBar) (c c' : ℕ) (ht : 1 ≤ pb.total)
    (hcc : c ≤ c') (hct : c' ≤ pb.total) (hd : digitCount c = digitCount c')
    (hw : 0 ≤ pb.width) :
    intPercent { pb with counter := c } ≤ intPercent { pb with counter := c' } := by
  have hcd : counterDiff { pb with counter := c }
      = counterDiff { pb with counter := c' } := by
    unfold counterDiff
    simp [hd]
  have hW' : 0 ≤ pb.width + counterDiff { pb with counter := c' } := by
    have : 0 ≤ counterDiff { pb with counter := c' } := counterDiff_nonneg hct
    omega
  have hW : 0 ≤ pb.width + counterDiff { pb with counter := c } := by omega
  have htq : (0 : ℚ) < ((pb.total : ℕ) : ℚ) := by exact_mod_cast ht
  have hper : percent { pb with counter := c } ≤ percent { pb with counter := c' } := by
    unfold percent
    simp only [hcd]
    apply mul_le_mul_of_nonneg_right
    · apply (div_le_div_iff_of_pos_right htq).mpr
      exact_mod_cast hcc
    · exact_mod_cast hW'
  rw [intPercent_eq_floor hW, intPercent_eq_floor hW']
  exact Int.floor_le_floor hper

lemma intPercent_ge_of_over (pb : ProgressBar) (ht : 1 ≤ pb.total)
    (hover : pb.total < pb.counter) (hW : 0 ≤ pb.width + counterDiff pb) :
    pb.width + counterDiff pb ≤ intPercent pb := by
  have htq : (0 : ℚ) < (pb.total : ℚ) := by exact_mod_cast ht
  have h1 : (1 : ℚ) ≤ (pb.counter : ℚ) / (pb.total : ℚ) := by
    rw [le_div_iff₀ htq, one_mul]
    exact_mod_cast le_of_lt hover
  have hWq : (0 : ℚ) ≤ ((pb.width + counterDiff pb : ℤ) : ℚ) := by exact_mod_cast hW
  have h2 : ((pb.width + counterDiff pb : ℤ) : ℚ) ≤ percent pb := by
    unfold percent
    calc ((pb.width + counterDiff pb : ℤ) : ℚ)
        = 1 * ((pb.width + counterDiff pb : ℤ) : ℚ) := (one_mul _).symm
      _ ≤ ((pb.counter : ℚ) / (pb.total : ℚ)) * ((pb.width + counterDiff pb : ℤ) : ℚ) :=
          mul_le_mul_of_nonneg_right h1 hWq
  rw [intPercent_eq_floor hW]
  exact Int.le_floor.mpr h2

/-! ### The claims -/

/-- Claim C9: for every number with zero fractional part (Python's
`int(number)` equals `number`) and every positive `round_to`,
`rounded(number, round_to)` returns 0; in particular
`rounded(number=3.0, round_to=25) = 0`. -/
theorem claim_C9_rounded_integral (q : ℚ) (r : ℤ) (hq : (pyInt q : ℚ) = q)
    (_hr : 0 < r) : rounded q r = 0 :=
  rounded_eq_zero_of_int r hq

theorem claim_C9_witness :
    (pyInt (3 : ℚ) : ℚ) = 3 ∧ (0 : ℤ) < 25 ∧ rounded 3 25 = 0 :=
  ⟨by norm_num [pyInt], by norm_num,
    claim_C9_rounded_integral 3 25 (by norm_num [pyInt]) (by norm_num)⟩

/-- Claim C10: for every `x ≥ 0`, `rounded x 25` lies in {0, 25, 50, 75, 100}
and `rounded x 50` lies in {0, 50, 100}; the nonzero values are exactly the
numeric keys of the style glyph table that `update()` indexes with the
result. -/
theorem claim_C10_rounded_range (x : ℚ) (hx : 0 ≤ x) :
    rounded x 25 ∈ ({0, 25, 50, 75, 100} : Finset ℤ)
    ∧ rounded x 50 ∈ ({0, 50, 100} : Finset ℤ)
    ∧ ∀ k : ℤ, ∀ s : ℕ,
        ((chars_num k s).isSome = true ↔ k ∈ ({25, 50, 75, 100} : Finset ℤ)) := by
  refine ⟨rounded_mem_25 x hx, rounded_mem_50 x hx, ?_⟩
  intro k s
  rw [chars_num_isSome_iff]
  simp

theorem claim_C10_witness :
    (0 : ℚ) ≤ 13 / 10
    ∧ (rounded (13 / 10) 25 ∈ ({0, 25, 50, 75, 100} : Finset ℤ)
       ∧ rounded (13 / 10) 50 ∈ ({0, 50, 100} : Finset ℤ)
       ∧ ∀ k : ℤ, ∀ s : ℕ,
           ((chars_num k s).isSome = true ↔ k ∈ ({25, 50, 75, 100} : Finset ℤ))) :=
  ⟨by norm_num, claim_C10_rounded_range (13 / 10) (by norm_num)⟩

/-- Claim C3: in `update()` the half-character key is `rounded(percent, 50)`
when `total ≤ barWidth * 4` and `rounded(percent, 25)` otherwise; the key is
a multiple of the step within half a step of the fractional part of `percent`
scaled to 0–100; and a key of 0 selects the empty glyph rather than an
error. -/
theorem claim_C3_half_glyph (pb : ProgressBar) (ht : 1 ≤ pb.total)
    (hc : pb.counter ≤ pb.total) (hw : 0 ≤ pb.width) :
    (halfStep pb = if (pb.total : ℤ) ≤ pb.width * 4 then 50 else 25)
    ∧ halfKey pb = rounded (percent pb) (halfStep pb)
    ∧ halfStep pb ∣ halfKey pb
    ∧ |((halfKey pb : ℤ) : ℚ) - (percent pb - (⌊percent pb⌋ : ℚ)) * 100|
        ≤ (halfStep pb : ℚ) / 2
    ∧ (halfKey pb = 0 → halfchar pb = []) := by
  have hW : 0 ≤ pb.width + counterDiff pb := by
    have := counterDiff_nonneg hc
    omega
  have hp0 : 0 ≤ percent pb := percent_nonneg hW
  have hstep : (0 : ℤ) < halfStep pb := by
    unfold halfStep
    split <;> norm_num
  refine ⟨?_, rfl, rounded_dvd _ _, rounded_near (percent pb) (halfStep pb) hp0 hstep,
    fun h => halfchar_eq_nil_of_key_zero h⟩
  simp [halfStep, not_lt]

theorem claim_C3_witness :
    1 ≤ (ProgressBar.mk 4 20 11 0 true 1).total
    ∧ (ProgressBar.mk 4 20 11 0 true 1).counter ≤ (ProgressBar.mk 4 20 11 0 true 1).total
    ∧ 0 ≤ (ProgressBar.mk 4 20 11 0 true 1).width
    ∧ ((halfStep (ProgressBar.mk 4 20 11 0 true 1)
          = if ((ProgressBar.mk 4 20 11 0 true 1).total : ℤ)
              ≤ (ProgressBar.mk 4 20 11 0 true 1).width * 4 then 50 else 25)
       ∧ halfKey (ProgressBar.mk 4 20 11 0 true 1)
           = rounded (percent (ProgressBar.mk 4 20 11 0 true 1))
               (halfStep (ProgressBar.mk 4 20 11 0 true 1))
       ∧ halfStep (ProgressBar.mk 4 20 11 0 true 1)
           ∣ halfKey (ProgressBar.mk 4 20 11 0 true 1)
       ∧ |((halfKey (ProgressBar.mk 4 20 11 0 true 1) : ℤ) : ℚ)
            - (percent (ProgressBar.mk 4 20 11 0 true 1)
               - (⌊percent (ProgressBar.mk 4 20 11 0 true 1)⌋ : ℚ)) * 100|
           ≤ (halfStep (ProgressBar.mk 4 20 11 0 true 1) : ℚ) / 2
       ∧ (halfKey (ProgressBar.mk 4 20 11 0 true 1) = 0 →
            halfchar (ProgressBar.mk 4 20 11 0 true 1) = [])) :=
  ⟨by norm_num, by norm_num, by norm_num,
    claim_C3_half_glyph (ProgressBar.mk 4 20 11 0 true 1)
      (by norm_num) (by norm_num) (by norm_num)⟩

/-- Claim C4: when `counter == total`, `digitPad` is 0, the number of
100%-fill glyphs emitted equals `barWidth + digitPad` exactly, and the
half-character glyph is the empty string. -/
theorem claim_C4_full_bar (pb : ProgressBar) (ht : 1 ≤ pb.total)
    (hfull : pb.counter = pb.total) (hw : 0 ≤ pb.width) :
    counterDiff pb = 0
    ∧ ((pyRepeat (chars_100 pb.style) (intPercent pb)).length : ℤ)
        = pb.width + counterDiff pb
    ∧ halfchar pb = [] := by
  have hcd : counterDiff pb = 0 := by
    unfold counterDiff
    rw [hfull]
    ring
  have htq : ((pb.total : ℕ) : ℚ) ≠ 0 := Nat.cast_ne_zero.mpr (by omega)
  have hper : percent pb = ((pb.width : ℤ) : ℚ) := by
    unfold percent
    rw [hfull, hcd, div_self htq]
    simp
  have hip : intPercent pb = pb.width := by
    unfold intPercent
    rw [hper, pyInt_intCast]
  refine ⟨hcd, ?_, ?_⟩
  · rw [pyRepeat_length, chars_100_length, hip, hcd]
    omega
  · apply halfchar_eq_nil_of_int
    rw [hper, pyInt_intCast]

theorem claim_C4_witness :
    1 ≤ (ProgressBar.mk 4 20 11 0 true 4).total
    ∧ (ProgressBar.mk 4 20 11 0 true 4).counter = (ProgressBar.mk 4 20 11 0 true 4).total
    ∧ 0 ≤ (ProgressBar.mk 4 20 11 0 true 4).width
    ∧ (counterDiff (ProgressBar.mk 4 20 11 0 true 4) = 0
       ∧ ((pyRepeat (chars_100 (ProgressBar.mk 4 20 11 0 true 4).style)
             (intPercent (ProgressBar.mk 4 20 11 0 true 4))).length : ℤ)
           = (ProgressBar.mk 4 20 11 0 true 4).width
             + counterDiff (ProgressBar.mk 4 20 11 0 true 4)
       ∧ halfchar (ProgressBar.mk 4 20 11 0 true 4) = []) :=
  ⟨by norm_num, rfl, by norm_num,
    claim_C4_full_bar (ProgressBar.mk 4 20 11 0 true 4) (by norm_num) rfl (by norm_num)⟩

/-- Claim C6: construction stores a style in `[0, 3)` unchanged, silently
resets any other style value (negative, too large, absent, or raising on
comparison) to 0, and never fails: the stored style is always below 3. -/
theorem claim_C6_style_fallback (t : ℕ) (o : Options) (w : ℤ) :
    (mkProgressBar t o w).style < 3
    ∧ (∀ z : ℤ, o.style = StyleOption.ofInt z →
        ((0 ≤ z ∧ z < 3) → ((mkProgressBar t o w).style : ℤ) = z)
        ∧ ((z < 0 ∨ 3 ≤ z) → (mkProgressBar t o w).style = 0))
    ∧ ((o.style = StyleOption.absent ∨ o.style = StyleOption.nonInt) →
        (mkProgressBar t o w).style = 0) := by
  have hstyle : (mkProgressBar t o w).style
      = match o.style with
        | StyleOption.ofInt z => if z < 0 ∨ 3 ≤ z then 0 else z.toNat
        | _ => 0 := rfl
  refine ⟨?_, ?_, ?_⟩
  · rw [hstyle]
    cases ho : o.style with
    | absent => simp
    | nonInt => simp
    | ofInt z =>
      simp only []
      split_ifs with h
      · norm_num
      · omega
  · intro z hz
    rw [hstyle, hz]
    constructor
    · intro hin
      simp only []
      rw [if_neg (by omega)]
      omega
    · intro hout
      simp only []
      rw [if_pos hout]
  · intro h
    rcases h with h | h <;> rw [hstyle, h]

theorem claim_C6_witness :
    ((mkProgressBar 5 (Options.mk none (StyleOption.ofInt 2) none) 80).style : ℤ) = 2
    ∧ (mkProgressBar 5 (Options.mk none (StyleOption.ofInt 7) none) 80).style = 0
    ∧ (mkProgressBar 5 (Options.mk none (StyleOption.ofInt (-1)) none) 80).style = 0
    ∧ (mkProgressBar 5 (Options.mk none StyleOption.nonInt none) 80).style = 0 :=
  ⟨((claim_C6_style_fallback 5 (Options.mk none (StyleOption.ofInt 2) none) 80).2.1
      2 rfl).1 ⟨by norm_num, by norm_num⟩,
   ((claim_C6_style_fallback 5 (Options.mk none (StyleOption.ofInt 7) none) 80).2.1
      7 rfl).2 (Or.inr (by norm_num)),
   ((claim_C6_style_fallback 5 (Options.mk none (StyleOption.ofInt (-1)) none) 80).2.1
      (-1) rfl).2 (Or.inl (by norm_num)),
   (claim_C6_style_fallback 5 (Options.mk none StyleOption.nonInt none) 80).2.2
      (Or.inr rfl)⟩

/-- Claim C7: `setup()` leaves the state (hence the counter, still 0)
unchanged and writes a line of exactly `displayWidth` characters — in the
counters-shown mode the empty-space run is `barWidth + digitCount(total) - 1`
glyphs followed by the right cap and a ` 0/total` suffix — with no newline
anywhere in the output. -/
theorem claim_C7_setup (t : ℕ) (o : Options) (w : ℤ)
    (hw : 0 ≤ (mkProgressBar t o w).width) :
    (setup (mkProgressBar t o w)).1 = mkProgressBar t o w
    ∧ (setup (mkProgressBar t o w)).1.counter = 0
    ∧ ((setup (mkProgressBar t o w)).2.length : ℤ) = (mkProgressBar t o w).total_width
    ∧ ((mkProgressBar t o w).show_counters = true →
        (setup (mkProgressBar t o w)).2
          = chars_left (mkProgressBar t o w).style
            ++ pyRepeat (chars_space (mkProgressBar t o w).style)
                 ((mkProgressBar t o w).width + ((digitCount t : ℤ) - 1))
            ++ chars_right (mkProgressBar t o w).style
            ++ ' ' :: (strNat 0 ++ '/' :: strNat t)
    )
    ∧ (∀ a ∈ (setup (mkProgressBar t o w)).2, a ≠ '\n') := by
  have hcd : counterDiff (mkProgressBar t o w) = (digitCount t : ℤ) - 1 := by
    unfold counterDiff
    rw [mkProgressBar_counter, mkProgressBar_total]
    have : digitCount 0 = 1 := by simp [digitCount_eq]
    rw [this]
    norm_num
  refine ⟨rfl, rfl, ?_, ?_, setupOutput_ne_newline _⟩
  · by_cases hsc : (mkProgressBar t o w).show_counters = true
    · have hlen := setupOutput_length_shown (mkProgressBar t o w) hsc
        (by rw [mkProgressBar_counter]; exact Nat.zero_le _) hw
      have hwidth := mkProgressBar_width_shown t o w hsc
      rw [show (setup (mkProgressBar t o w)).2 = setupOutput (mkProgressBar t o w) from rfl,
        hlen, mkProgressBar_total]
      omega
    · rw [Bool.not_eq_true] at hsc
      have hlen := setupOutput_length_hidden (mkProgressBar t o w) hsc hw
      have hwidth := mkProgressBar_width_hidden t o w hsc
      rw [show (setup (mkProgressBar t o w)).2 = setupOutput (mkProgressBar t o w) from rfl,
        hlen]
      omega
  · intro hsc
    show setupOutput (mkProgressBar t o w) = _
    rw [setupOutput, if_pos hsc, hcd, mkProgressBar_counter, mkProgressBar_total]

theorem claim_C7_witness :
    0 ≤ (mkProgressBar 4 (Options.mk (some 20) StyleOption.absent none) 80).width
    ∧ ((setup (mkProgressBar 4 (Options.mk (some 20) StyleOption.absent none) 80)).1
        = mkProgressBar 4 (Options.mk (some 20) StyleOption.absent none) 80
       ∧ (setup (mkProgressBar 4 (Options.mk (some 20) StyleOption.absent none) 80)).1.counter = 0
       ∧ ((setup (mkProgressBar 4 (Options.mk (some 20) StyleOption.absent none) 80)).2.length : ℤ)
           = (mkProgressBar 4 (Options.mk (some 20) StyleOption.absent none) 80).total_width
       ∧ ((mkProgressBar 4 (Options.mk (some 20) StyleOption.absent none) 80).show_counters = true →
           (setup (mkProgressBar 4 (Options.mk (some 20) StyleOption.absent none) 80)).2
             = chars_left (mkProgressBar 4 (Options.mk (some 20) StyleOption.absent none) 80).style
               ++ pyRepeat
                    (chars_space (mkProgressBar 4 (Options.mk (some 20) StyleOption.absent none) 80).style)
                    ((mkProgressBar 4 (Options.mk (some 20) StyleOption.absent none) 80).width
                     + ((digitCount 4 : ℤ) - 1))
               ++ chars_right (mkProgressBar 4 (Options.mk (some 20) StyleOption.absent none) 80).style
               ++ ' ' :: (strNat 0 ++ '/' :: strNat 4))
       ∧ (∀ a ∈ (setup (mkProgressBar 4 (Options.mk (some 20) StyleOption.absent none) 80)).2,
            a ≠ '\n')) := by
  have hw : 0 ≤ (mkProgressBar 4 (Options.mk (some 20) StyleOption.absent none) 80).width := by
    simp [mkProgressBar, digitCount_eq, chars_left, chars_right]
  exact ⟨hw, claim_C7_setup 4 (Options.mk (some 20) StyleOption.absent none) 80 hw⟩

/-- Repeating the one-character string `" "` `n` times gives `n` spaces. -/
lemma pyRepeat_single (c : Char) (n : ℤ) :
    pyRepeat [c] n = List.replicate n.toNat c := by
  unfold pyRepeat
  generalize n.toNat = m
  induction m with
  | zero => rfl
  | succ k ih => simp [List.replicate_succ, ih]

/-- Claim C8: for every renderer state, `clear()` leaves the state unchanged
and writes exactly one carriage return, `displayWidth` space characters and
one more carriage return — no newline. -/
theorem claim_C8_clear (pb : ProgressBar) (hw : 0 ≤ pb.total_width) :
    (clear pb).1 = pb
    ∧ (clear pb).2 = '\r' :: (List.replicate pb.total_width.toNat ' ' ++ ['\r'])
    ∧ ((clear pb).2.length : ℤ) = pb.total_width + 2
    ∧ (∀ a ∈ (clear pb).2, a ≠ '\n') := by
  refine ⟨rfl, ?_, ?_, ?_⟩
  · show clearOutput pb = _
    rw [clearOutput, pyRepeat_single]
  · show ((clearOutput pb).length : ℤ) = _
    simp [clearOutput, pyRepeat_length]
    omega
  · intro a ha
    rcases List.mem_cons.mp ha with h | h
    · rw [h]; decide
    rcases List.mem_append.mp h with h | h
    · have := mem_pyRepeat h
      rw [List.mem_singleton] at this
      rw [this]; decide
    · rw [List.mem_singleton] at h
      rw [h]; decide

theorem claim_C8_witness :
    0 ≤ (ProgressBar.mk 1 5 1 0 true 0).total_width
    ∧ ((clear (ProgressBar.mk 1 5 1 0 true 0)).1 = ProgressBar.mk 1 5 1 0 true 0
       ∧ (clear (ProgressBar.mk 1 5 1 0 true 0)).2
           = '\r' :: (List.replicate (ProgressBar.mk 1 5 1 0 true 0).total_width.toNat ' '
                      ++ ['\r'])
       ∧ ((clear (ProgressBar.mk 1 5 1 0 true 0)).2.length : ℤ)
           = (ProgressBar.mk 1 5 1 0 true 0).total_width + 2
       ∧ (∀ a ∈ (clear (ProgressBar.mk 1 5 1 0 true 0)).2, a ≠ '\n')) :=
  ⟨by norm_num, claim_C8_clear (ProgressBar.mk 1 5 1 0 true 0) (by norm_num)⟩

/-- Claim C2's counterexample: with total 45, displayWidth 12 and barWidth 4
(counters shown), the 9th update fills `⌊(9/45)·(4+1)⌋ = 1` cell but the 10th
fills `⌊(10/45)·(4+0)⌋ = 0`: the 100%-glyph count drops when the counter
gains a digit, so it is not non-decreasing from 1 to total. -/
theorem claim_C2_counterexample :
    pbC2.total = 45 ∧ pbC2.width = 4
    ∧ intPercent { pbC2 with counter := 9 } = 1
    ∧ intPercent { pbC2 with counter := 10 } = 0
    ∧ intPercent { pbC2 with counter := 10 } < intPercent { pbC2 with counter := 9 } := by
  have hpb : pbC2 = ProgressBar.mk 45 12 4 0 true 0 := by
    simp [pbC2, mkProgressBar, digitCount_eq, chars_left, chars_right]
  have h9 : intPercent (ProgressBar.mk 45 12 4 0 true 9) = 1 := by
    have hper : percent (ProgressBar.mk 45 12 4 0 true 9) = 1 := by
      unfold percent counterDiff
      simp [digitCount_eq]
      norm_num
    unfold intPercent
    rw [hper]
    norm_num [pyInt]
  have h10 : intPercent (ProgressBar.mk 45 12 4 0 true 10) = 0 := by
    have hper : percent (ProgressBar.mk 45 12 4 0 true 10) = 8 / 9 := by
      unfold percent counterDiff
      simp [digitCount_eq]
      norm_num
    unfold intPercent
    rw [hper]
    norm_num [pyInt]
  rw [hpb]
  exact ⟨rfl, rfl, h9, h10, by rw [h9, h10]; norm_num⟩

/-- Claim C2 amended: for a fixed total (≥ 1) and fixed nonnegative barWidth,
the 100%-fill glyph count `⌊percent⌋` is non-decreasing as the counter
increases through values of equal printed digit count (it can drop exactly
when the counter gains a digit, which shrinks the digit-pad term inside
`percent`). -/
theorem claim_C2_amended (pb : ProgressBar) (c c' : ℕ) (ht : 1 ≤ pb.total)
    (hcc : c ≤ c') (hct : c' ≤ pb.total) (hd : digitCount c = digitCount c')
    (hw : 0 ≤ pb.width) :
    intPercent { pb with counter := c } ≤ intPercent { pb with counter := c' } :=
  intPercent_mono pb c c' ht hcc hct hd hw

theorem claim_C2_witness :
    1 ≤ (ProgressBar.mk 45 12 4 0 true 0).total
    ∧ (2 : ℕ) ≤ 7 ∧ 7 ≤ (ProgressBar.mk 45 12 4 0 true 0).total
    ∧ digitCount 2 = digitCount 7
    ∧ 0 ≤ (ProgressBar.mk 45 12 4 0 true 0).width
    ∧ intPercent { ProgressBar.mk 45 12 4 0 true 0 with counter := 2 }
        ≤ intPercent { ProgressBar.mk 45 12 4 0 true 0 with counter := 7 } :=
  ⟨by norm_num, by norm_num, by norm_num, by simp [digitCount_eq], by norm_num,
    claim_C2_amended (ProgressBar.mk 45 12 4 0 true 0) 2 7 (by norm_num)
      (by norm_num) (by norm_num) (by simp [digitCount_eq]) (by norm_num)⟩

/-- Claim C5's counterexample: with total 9 and barWidth 5 (displayWidth 11,
counters shown), the 10th update — one beyond total — fills
`⌊(10/9)·(5-1)⌋ = 4` cells, which does not exceed barWidth 5: an update
beyond total does not always make the fill count exceed barWidth. -/
theorem claim_C5_counterexample :
    pbC5.total = 9 ∧ pbC5.width = 5
    ∧ intPercent { pbC5 with counter := 10 } = 4
    ∧ ¬ (pbC5.width < intPercent { pbC5 with counter := 10 }) := by
  have hpb : pbC5 = ProgressBar.mk 9 11 5 0 true 0 := by
    simp [pbC5, mkProgressBar, digitCount_eq, chars_left, chars_right]
  have h10 : intPercent (ProgressBar.mk 9 11 5 0 true 10) = 4 := by
    have hper : percent (ProgressBar.mk 9 11 5 0 true 10) = 40 / 9 := by
      unfold percent counterDiff
      simp [digitCount_eq]
      norm_num
    unfold intPercent
    rw [hper]
    norm_num [pyInt]
  rw [hpb]
  exact ⟨rfl, rfl, h10, by rw [h10]; norm_num⟩

/-- Claim C5 amended: with total ≥ 1 no operation raises — in particular
`update()` returns output for any number of prior calls, including beyond
total — and an update beyond total fills the entire (nonnegative)
`barWidth + digitPad` budget, possibly but not necessarily exceeding
barWidth. -/
theorem claim_C5_amended (pb : ProgressBar) (ht : 1 ≤ pb.total) :
    (update pb).isSome = true
    ∧ (pb.total < pb.counter + 1 →
        0 ≤ pb.width + counterDiff { pb with counter := pb.counter + 1 } →
        pb.width + counterDiff { pb with counter := pb.counter + 1 }
          ≤ intPercent { pb with counter := pb.counter + 1 }) := by
  constructor
  · have htz : pb.total ≠ 0 := by omega
    simp [update, htz]
  · intro hover hW
    exact intPercent_ge_of_over { pb with counter := pb.counter + 1 }
      (by simpa using ht) (by simpa using hover) hW

theorem claim_C5_witness :
    1 ≤ (ProgressBar.mk 9 11 5 0 true 10).total
    ∧ ((update (ProgressBar.mk 9 11 5 0 true 10)).isSome = true
       ∧ ((ProgressBar.mk 9 11 5 0 true 10).total
             < (ProgressBar.mk 9 11 5 0 true 10).counter + 1 →
           0 ≤ (ProgressBar.mk 9 11 5 0 true 10).width
               + counterDiff { ProgressBar.mk 9 11 5 0 true 10 with
                   counter := (ProgressBar.mk 9 11 5 0 true 10).counter + 1 } →
           (ProgressBar.mk 9 11 5 0 true 10).width
               + counterDiff { ProgressBar.mk 9 11 5 0 true 10 with
                   counter := (ProgressBar.mk 9 11 5 0 true 10).counter + 1 }
             ≤ intPercent { ProgressBar.mk 9 11 5 0 true 10 with
                   counter := (ProgressBar.mk 9 11 5 0 true 10).counter + 1 })) :=
  ⟨by norm_num, claim_C5_amended (ProgressBar.mk 9 11 5 0 true 10) (by norm_num)⟩

/-- Claim C1 fails on the code in the counters-hidden mode: evaluating the
embedded `update()` at `ProgressBar(10, {"width": 6, "show_counters":
False})` on its 9th call (a legal call, counter 9 ≤ total 10), the body
written after the carriage return is 7 characters long — `percent` still
includes the digit-pad term while the hidden-counters space budget does not,
so the line exceeds displayWidth 6. -/
theorem claim_C1_code_eval :
    pbC1.total_width = 6
    ∧ pbC1.show_counters = false
    ∧ 1 ≤ pbC1.counter ∧ pbC1.counter ≤ pbC1.total
    ∧ (updateBody pbC1).length = 7 := by
  have hpb : pbC1 = ProgressBar.mk 10 6 4 0 false 9 := by
    simp [pbC1, mkProgressBar, chars_left, chars_right]
  have hper : percent (ProgressBar.mk 10 6 4 0 false 9) = 9 / 2 := by
    unfold percent counterDiff
    simp [digitCount_eq]
    norm_num
  have hip : intPercent (ProgressBar.mk 10 6 4 0 false 9) = 4 := by
    unfold intPercent
    rw [hper]
    norm_num [pyInt]
  have hpy : pyInt ((9 : ℚ) / 2) = 4 := by norm_num [pyInt]
  have hkey : halfKey (ProgressBar.mk 10 6 4 0 false 9) = 50 := by
    have hstep : halfStep (ProgressBar.mk 10 6 4 0 false 9) = 50 := by
      norm_num [halfStep]
    unfold halfKey
    rw [hstep, hper]
    unfold rounded
    rw [hpy]
    have h1 : ((9 : ℚ) / 2 - ((4 : ℤ) : ℚ)) * 100 / ((50 : ℤ) : ℚ) = 1 := by
      norm_num
    rw [h1]
    have h2 : pyRound 1 = 1 := by norm_num [pyRound]
    rw [h2]
    norm_num
  have hhc : halfchar (ProgressBar.mk 10 6 4 0 false 9) = ['-'] := by
    unfold halfchar
    rw [hkey]
    simp [chars_num, chars_50]
  rw [hpb]
  refine ⟨rfl, rfl, by norm_num, by norm_num, ?_⟩
  simp [updateBody, hip, hhc, pyRepeat_length, chars_100_length,
    chars_space_length, chars_left, chars_right]

end Bladerunner
